import Mathlib

/-!
Shallow embedding of `render/wgpu/src/frame.rs` (the per-frame drawing
orchestrator of the ruffle wgpu rendering backend) and proofs about its
mask/blend state machine, stencil-reference protocol, pipeline selection
and per-draw uniform submission.

Machine integers: `num_masks` is a `u32` in the source; it is modelled as a
`Nat` with explicit wrap-around `% 2^32` at the increment and decrement
sites (release-mode Rust semantics).  Floating point values that the source
only ever produces by exact conversions (8-bit channel / 255, twips / 20)
are modelled as rationals.  A Rust panic (`unwrap` on an empty vector,
out-of-bounds `Vec` index) is modelled by an `Option` result: `none` is a
panic, `some` is normal completion.  GPU side effects (render-pass and
uniform-channel calls) are modelled as an explicit trace of `Effect`s.
-/

namespace Ruffle

/-- `2^32`, the modulus of the `u32` arithmetic on `num_masks`. -/
def U32 : Nat := 2 ^ 32

/-- The mask phase enum `MaskState` of the wgpu backend. -/
inductive MaskState where
  | NoMask
  | DrawMaskStencil
  | DrawMaskedContent
  | ClearMaskStencil
deriving DecidableEq, Repr

/-- `swf::BlendMode`. -/
inductive BlendMode where
  | Normal
  | Layer
  | Multiply
  | Screen
  | Lighten
  | Darken
  | Difference
  | Add
  | Subtract
  | Invert
  | Alpha
  | Erase
  | Overlay
  | HardLight
deriving DecidableEq, Repr

/-- `swf::Color`: four 8-bit channels. -/
structure Color where
  r : Nat
  g : Nat
  b : Nat
  a : Nat
deriving DecidableEq, Repr

/-- `ruffle_render::matrix::Matrix`: a 2x3 affine transform; `a b c d` are
the linear part, `tx ty` the translation in twips. -/
structure Matrix where
  a : ℚ
  b : ℚ
  c : ℚ
  d : ℚ
  tx : ℚ
  ty : ℚ
deriving DecidableEq, Repr

/-- Modelled from the spec: `Matrix::default()` of the external matrix
collaborator (not under `src/`) is the identity transform. -/
def Matrix.default : Matrix := ⟨1, 0, 0, 1, 0, 0⟩

/-- Modelled from the spec: affine composition `m1 * m2` of the external
matrix collaborator (not under `src/`); only used to compose a bitmap
command's transform with the texture's pixel dimensions. -/
def Matrix.mul (m1 m2 : Matrix) : Matrix :=
  { a := m1.a * m2.a + m1.c * m2.b
    b := m1.b * m2.a + m1.d * m2.b
    c := m1.a * m2.c + m1.c * m2.d
    d := m1.b * m2.c + m1.d * m2.d
    tx := m1.a * m2.tx + m1.c * m2.ty + m1.tx
    ty := m1.b * m2.tx + m1.d * m2.ty + m1.ty }

/-- Twips to pixels: one pixel is twenty twips. -/
def toPixels (twips : ℚ) : ℚ := twips / 20

/-- An RGBA quadruple of rationals. -/
abbrev Rgba : Type := ℚ × ℚ × ℚ × ℚ

/-- Modelled from the spec: `ColorTransform` of the external collaborator,
a color adjustment pair (multiplicative RGBA, additive RGBA). -/
structure ColorTransform where
  mult : Rgba
  add : Rgba
deriving DecidableEq, Repr

/-- `ruffle_render::transform::Transform`: a matrix plus a color transform. -/
structure Transform where
  matrix : Matrix
  color_transform : ColorTransform
deriving DecidableEq, Repr

/-- The `ColorAdjustments` uniform payload. -/
structure ColorAdjustments where
  mult_color : Rgba
  add_color : Rgba
deriving DecidableEq, Repr

/-- Modelled from the spec: `ColorAdjustments::from(ColorTransform)` (the
conversion lives outside `src/`); it carries the multiplicative and
additive RGBA pair into the uniform payload. -/
def ColorAdjustments.from (ct : ColorTransform) : ColorAdjustments :=
  { mult_color := ct.mult, add_color := ct.add }

/-- One row of a 4x4 world matrix. -/
abbrev Row4 : Type := ℚ × ℚ × ℚ × ℚ

/-- A 4x4 world matrix as four rows. -/
abbrev Mat4 : Type := Row4 × Row4 × Row4 × Row4

/-- The `Transforms` uniform struct: world matrix plus color adjustments. -/
structure Transforms where
  world_matrix : Mat4
  color_adjustments : ColorAdjustments
deriving DecidableEq, Repr

/-- The `world_matrix` built from a 2x3 affine matrix by every draw
handler: rows `[[a,b,0,0],[c,d,0,0],[0,0,1,0],[tx_px,ty_px,0,1]]`. -/
def worldMatrixOf (m : Matrix) : Mat4 :=
  ((m.a, m.b, 0, 0), (m.c, m.d, 0, 0), (0, 0, 1, 0),
   (toPixels m.tx, toPixels m.ty, 0, 1))

/-- The texture data a registry entry exposes: pixel dimensions and the
draw bind group. -/
structure Texture where
  width : Nat
  height : Nat
  bind_group : Nat
deriving DecidableEq, Repr

/-- `RegistryData`: the bitmap registry's per-handle entry. -/
structure RegistryData where
  texture_wrapper : Texture
deriving DecidableEq, Repr

/-- `DrawType`: the material kind of one mesh sub-draw. -/
inductive DrawType where
  | Color
  | Gradient (bind_group : Nat)
  | Bitmap (is_repeating : Bool) (is_smoothed : Bool) (bind_group : Nat)
deriving DecidableEq, Repr

/-- One mesh sub-draw: draw type, the two index counts, and its buffers. -/
structure Draw where
  draw_type : DrawType
  num_indices : Nat
  num_mask_indices : Nat
  vertex_buffer : Nat
  index_buffer : Nat
deriving DecidableEq, Repr

/-- `Mesh`: an ordered sequence of sub-draws. -/
structure Mesh where
  draws : List Draw
deriving DecidableEq, Repr

/-- Which pipeline table a `pipeline_for` lookup goes through. -/
inductive PipelineKind where
  | color
  | gradient
  | bitmap
deriving DecidableEq, Repr

/-- A bind-group argument of `set_bind_group`. -/
inductive BindGroup where
  | globals
  | texture (id : Nat)
  | gradient (id : Nat)
  | sampler (is_repeating : Bool) (is_smoothed : Bool)
deriving DecidableEq, Repr

/-- A vertex/index buffer argument. -/
inductive BufferRef where
  | quad_vbo
  | quad_ibo
  | buf (id : Nat)
deriving DecidableEq, Repr

/-- One recorded GPU call of a command handler, in program order. -/
inductive Effect where
  | set_pipeline (kind : PipelineKind) (blend : BlendMode) (mask : MaskState)
  | set_bind_group (slot : Nat) (group : BindGroup)
  | write_uniforms (slot : Nat) (t : Transforms)
  | set_vertex_buffer (buffer : BufferRef)
  | set_index_buffer (buffer : BufferRef)
  | set_stencil_reference (reference : Nat)
  | draw_indexed (num_indices : Nat)
deriving DecidableEq, Repr

/-- The per-frame execution context `Frame`.  The GPU handles
(`render_pass`, `uniform_buffers`, pipeline tables, quad buffers) are
modelled by the effect trace; the read-only registry and mesh table are
carried in the state. -/
structure Frame where
  mask_state : MaskState
  num_masks : Nat
  blend_modes : List BlendMode
  bitmap_registry : List (Nat × RegistryData)
  meshes : List Mesh
deriving DecidableEq, Repr

/-- `Frame::new`: initial state `NoMask`, zero masks, blend stack
`vec![BlendMode::Normal]`. -/
def Frame.new (bitmap_registry : List (Nat × RegistryData))
    (meshes : List Mesh) : Frame :=
  { mask_state := MaskState.NoMask
    num_masks := 0
    blend_modes := [BlendMode.Normal]
    bitmap_registry := bitmap_registry
    meshes := meshes }

/-- `Frame::blend_mode`: `*self.blend_modes.last().unwrap()`.  `none`
models the panic of `unwrap` on an empty stack. -/
def Frame.blend_mode (f : Frame) : Option BlendMode :=
  f.blend_modes.getLast?

/-- The stencil-reference match repeated verbatim in `render_bitmap`,
`render_shape` and `draw_rect`: no call for `NoMask`,
`set_stencil_reference(num_masks - 1)` (wrapping `u32` subtraction) for
`DrawMaskStencil`, `set_stencil_reference(num_masks)` for
`DrawMaskedContent` and `ClearMaskStencil`. -/
def maskStencilEffects (mask_state : MaskState) (num_masks : Nat) :
    List Effect :=
  match mask_state with
  | MaskState.NoMask => []
  | MaskState.DrawMaskStencil =>
      [Effect.set_stencil_reference ((num_masks + (U32 - 1)) % U32)]
  | MaskState.DrawMaskedContent =>
      [Effect.set_stencil_reference num_masks]
  | MaskState.ClearMaskStencil =>
      [Effect.set_stencil_reference num_masks]

/-- `render_bitmap`: skip silently when the handle has no registry entry;
otherwise select the bitmap pipeline for the current blend mode and mask
state, bind globals, submit the transform uniform (the command transform
composed with a scale to the texture's pixel size), bind texture and
sampler, bind the quad buffers, set the stencil reference and draw the
six quad indices. -/
def Frame.render_bitmap (f : Frame) (bitmap : Nat) (transform : Transform)
    (smoothing : Bool) : Option (List Effect) :=
  match f.bitmap_registry.lookup bitmap with
  | none => some []
  | some entry =>
    match f.blend_mode with
    | none => none
    | some blend_mode =>
      let texture := entry.texture_wrapper
      let matrix2 := transform.matrix.mul
        { Matrix.default with
            a := (texture.width : ℚ), d := (texture.height : ℚ) }
      some ([Effect.set_pipeline PipelineKind.bitmap blend_mode f.mask_state,
             Effect.set_bind_group 0 BindGroup.globals,
             Effect.write_uniforms 1
               { world_matrix := worldMatrixOf matrix2
                 color_adjustments :=
                   ColorAdjustments.from transform.color_transform },
             Effect.set_bind_group 2 (BindGroup.texture texture.bind_group),
             Effect.set_bind_group 3 (BindGroup.sampler false smoothing),
             Effect.set_vertex_buffer BufferRef.quad_vbo,
             Effect.set_index_buffer BufferRef.quad_ibo]
            ++ maskStencilEffects f.mask_state f.num_masks
            ++ [Effect.draw_indexed 6])

/-- The applicable index count of one sub-draw, as the source computes it:
the normal count unless the mask state is `DrawMaskStencil` or
`ClearMaskStencil`, in which case the reduced mask-only count (strokes are
omitted when drawing a mask stencil). -/
def drawNumIndices (mask_state : MaskState) (draw : Draw) : Nat :=
  if mask_state ≠ MaskState.DrawMaskStencil ∧
      mask_state ≠ MaskState.ClearMaskStencil then
    draw.num_indices
  else
    draw.num_mask_indices

/-- The body of `render_shape`'s sub-draw loop: `continue` (no effects)
when the applicable index count is zero, otherwise pipeline selection and
material binds by draw type, the sub-draw's buffers, the stencil
reference, and the indexed draw over the applicable count. -/
def shapeDrawEffects (mask_state : MaskState) (num_masks : Nat)
    (blend_mode : BlendMode) (draw : Draw) : List Effect :=
  let num_indices := drawNumIndices mask_state draw
  if num_indices = 0 then []
  else
    (match draw.draw_type with
     | DrawType.Color =>
         [Effect.set_pipeline PipelineKind.color blend_mode mask_state]
     | DrawType.Gradient bind_group =>
         [Effect.set_pipeline PipelineKind.gradient blend_mode mask_state,
          Effect.set_bind_group 2 (BindGroup.gradient bind_group)]
     | DrawType.Bitmap is_repeating is_smoothed bind_group =>
         [Effect.set_pipeline PipelineKind.bitmap blend_mode mask_state,
          Effect.set_bind_group 2 (BindGroup.texture bind_group),
          Effect.set_bind_group 3 (BindGroup.sampler is_repeating is_smoothed)])
    ++ [Effect.set_vertex_buffer (BufferRef.buf draw.vertex_buffer),
        Effect.set_index_buffer (BufferRef.buf draw.index_buffer)]
    ++ maskStencilEffects mask_state num_masks
    ++ [Effect.draw_indexed num_indices]

/-- `render_shape`: resolve the blend mode (panics on an empty stack),
index the mesh table (panics when out of bounds), bind globals, submit the
transform uniform, then run the sub-draw loop. -/
def Frame.render_shape (f : Frame) (shape : Nat) (transform : Transform) :
    Option (List Effect) :=
  match f.blend_mode with
  | none => none
  | some blend_mode =>
    match f.meshes.get? shape with
    | none => none
    | some mesh =>
      some ([Effect.set_bind_group 0 BindGroup.globals,
             Effect.write_uniforms 1
               { world_matrix := worldMatrixOf transform.matrix
                 color_adjustments :=
                   ColorAdjustments.from transform.color_transform }]
            ++ mesh.draws.flatMap
                (shapeDrawEffects f.mask_state f.num_masks blend_mode))

/-- `draw_rect`: select the flat-color pipeline for the current blend mode
and mask state, bind globals, submit a uniform whose multiplicative color
is each 8-bit channel divided by 255 and whose additive color is zero,
bind the quad buffers, set the stencil reference and draw the six quad
indices. -/
def Frame.draw_rect (f : Frame) (color : Color) (matrix : Matrix) :
    Option (List Effect) :=
  match f.blend_mode with
  | none => none
  | some blend_mode =>
    let mult_color : Rgba :=
      ((color.r : ℚ) / 255, (color.g : ℚ) / 255,
       (color.b : ℚ) / 255, (color.a : ℚ) / 255)
    let add_color : Rgba := (0, 0, 0, 0)
    some ([Effect.set_pipeline PipelineKind.color blend_mode f.mask_state,
           Effect.set_bind_group 0 BindGroup.globals,
           Effect.write_uniforms 1
             { world_matrix := worldMatrixOf matrix
               color_adjustments :=
                 { mult_color := mult_color, add_color := add_color } },
           Effect.set_vertex_buffer BufferRef.quad_vbo,
           Effect.set_index_buffer BufferRef.quad_ibo]
          ++ maskStencilEffects f.mask_state f.num_masks
          ++ [Effect.draw_indexed 6])

/-- `push_mask`: increment `num_masks` (wrapping `u32`), enter
`DrawMaskStencil`. -/
def Frame.push_mask (f : Frame) : Frame :=
  { f with num_masks := (f.num_masks + 1) % U32
           mask_state := MaskState.DrawMaskStencil }

/-- `activate_mask`: enter `DrawMaskedContent`. -/
def Frame.activate_mask (f : Frame) : Frame :=
  { f with mask_state := MaskState.DrawMaskedContent }

/-- `deactivate_mask`: enter `ClearMaskStencil`. -/
def Frame.deactivate_mask (f : Frame) : Frame :=
  { f with mask_state := MaskState.ClearMaskStencil }

/-- `pop_mask`: decrement `num_masks` (wrapping `u32`); `NoMask` when the
new depth is zero, else `DrawMaskedContent`. -/
def Frame.pop_mask (f : Frame) : Frame :=
  let num_masks := (f.num_masks + (U32 - 1)) % U32
  { f with num_masks := num_masks
           mask_state :=
             if num_masks = 0 then MaskState.NoMask
             else MaskState.DrawMaskedContent }

/-- `push_blend_mode`: `self.blend_modes.push(blend)`. -/
def Frame.push_blend_mode (f : Frame) (blend : BlendMode) : Frame :=
  { f with blend_modes := f.blend_modes ++ [blend] }

/-- `pop_blend_mode`: `self.blend_modes.pop()`; `Vec::pop` on an empty
vector is a no-op returning `None`, never a panic. -/
def Frame.pop_blend_mode (f : Frame) : Frame :=
  { f with blend_modes := f.blend_modes.dropLast }

/-- The nine command variants handled by the `CommandHandler` impl. -/
inductive Command where
  | RenderBitmap (bitmap : Nat) (transform : Transform) (smoothing : Bool)
  | RenderShape (shape : Nat) (transform : Transform)
  | DrawRect (color : Color) (matrix : Matrix)
  | PushMask
  | ActivateMask
  | DeactivateMask
  | PopMask
  | PushBlend (blend : BlendMode)
  | PopBlend
deriving DecidableEq, Repr

/-- Processing one command: the next frame state and the recorded GPU
effects; `none` is a panic. -/
def step (f : Frame) : Command → Option (Frame × List Effect)
  | Command.RenderBitmap bitmap transform smoothing =>
      (f.render_bitmap bitmap transform smoothing).map (fun es => (f, es))
  | Command.RenderShape shape transform =>
      (f.render_shape shape transform).map (fun es => (f, es))
  | Command.DrawRect color matrix =>
      (f.draw_rect color matrix).map (fun es => (f, es))
  | Command.PushMask => some (f.push_mask, [])
  | Command.ActivateMask => some (f.activate_mask, [])
  | Command.DeactivateMask => some (f.deactivate_mask, [])
  | Command.PopMask => some (f.pop_mask, [])
  | Command.PushBlend blend => some (f.push_blend_mode blend, [])
  | Command.PopBlend => some (f.pop_blend_mode, [])

/-- Processing a command sequence, threading the frame state. -/
def run (f : Frame) : List Command → Option Frame
  | [] => some f
  | c :: cs =>
    match step f c with
    | none => none
    | some (f', _) => run f' cs

/-- The stencil references an effect trace sets, in order. -/
def stencilRefs (es : List Effect) : List Nat :=
  es.filterMap fun e =>
    match e with
    | Effect.set_stencil_reference r => some r
    | _ => none

/-- The uniform writes an effect trace performs, in order. -/
def uniformWrites (es : List Effect) : List (Nat × Transforms) :=
  es.filterMap fun e =>
    match e with
    | Effect.write_uniforms slot t => some (slot, t)
    | _ => none

/-- The pipeline selections an effect trace performs, in order. -/
def pipelineSelections (es : List Effect) :
    List (PipelineKind × BlendMode × MaskState) :=
  es.filterMap fun e =>
    match e with
    | Effect.set_pipeline kind blend mask => some (kind, blend, mask)
    | _ => none

/-- The spec's stencil-reference rule (§4.1): `DrawingMaskStencil` uses
`depth - 1`, `DrawingMaskedContent` and `ClearingMaskStencil` use `depth`,
`NoMask` issues no stencil reference. -/
def specStencilRefs (mask_state : MaskState) (depth : Nat) : List Nat :=
  match mask_state with
  | MaskState.NoMask => []
  | MaskState.DrawMaskStencil => [depth - 1]
  | MaskState.DrawMaskedContent => [depth]
  | MaskState.ClearMaskStencil => [depth]

/-- The spec's applicable index count (§4.1): the reduced mask-only count
when the phase is `DrawingMaskStencil` or `ClearingMaskStencil`, the
normal count otherwise. -/
def applicableIndices (mask_state : MaskState) (draw : Draw) : Nat :=
  if mask_state = MaskState.DrawMaskStencil ∨
      mask_state = MaskState.ClearMaskStencil then
    draw.num_mask_indices
  else
    draw.num_indices

/-- A frame at a given mask phase and depth, over empty registry and mesh
tables; used by the concrete witnesses. -/
def frameAt (mask_state : MaskState) (num_masks : Nat) : Frame :=
  { Frame.new [] [] with mask_state := mask_state, num_masks := num_masks }

/-- A concrete transform for the witnesses. -/
def sampleTransform : Transform :=
  { matrix := Matrix.default
    color_transform := { mult := (1, 1, 1, 1), add := (0, 0, 0, 0) } }

/-- `U32` as a numeral. -/
theorem U32_eq : U32 = 4294967296 := by norm_num [U32]

/-- C1: the mask state machine follows the spec's transition table: from
any state, `PushMask` increments the depth by one (given no `u32`
overflow) and enters `DrawingMaskStencil`; `ActivateMask` moves
`DrawingMaskStencil` to `DrawingMaskedContent`; `DeactivateMask` moves
`DrawingMaskedContent` to `ClearingMaskStencil`; `PopMask` decrements the
depth and enters `NoMask` when the new depth is zero, else
`DrawingMaskedContent`; each non-push transition under its precondition
`depth > 0` and the listed source phase. -/
theorem mask_transition_table (f : Frame) :
    (f.num_masks + 1 < U32 →
      f.push_mask = { f with num_masks := f.num_masks + 1
                             mask_state := MaskState.DrawMaskStencil }) ∧
    (0 < f.num_masks → f.mask_state = MaskState.DrawMaskStencil →
      f.activate_mask = { f with mask_state := MaskState.DrawMaskedContent }) ∧
    (0 < f.num_masks → f.mask_state = MaskState.DrawMaskedContent →
      f.deactivate_mask = { f with mask_state := MaskState.ClearMaskStencil }) ∧
    (0 < f.num_masks → f.num_masks < U32 →
      f.mask_state = MaskState.ClearMaskStencil →
      f.pop_mask = { f with num_masks := f.num_masks - 1
                            mask_state :=
                              if f.num_masks - 1 = 0 then MaskState.NoMask
                              else MaskState.DrawMaskedContent }) := by
  have hU := U32_eq
  refine ⟨fun h => ?_, fun h1 h2 => rfl, fun h1 h2 => rfl, fun h1 h2 h3 => ?_⟩
  · simp only [Frame.push_mask]
    rw [Nat.mod_eq_of_lt h]
  · simp only [Frame.pop_mask]
    have e : (f.num_masks + (U32 - 1)) % U32 = f.num_masks - 1 := by
      rw [hU] at *; omega
    rw [e]

/-- C1 witness: the four transitions evaluated at concrete frames. -/
theorem mask_transition_table_witness :
    ((frameAt MaskState.NoMask 0).num_masks + 1 < U32 →
      (frameAt MaskState.NoMask 0).push_mask =
        { frameAt MaskState.NoMask 0 with
            num_masks := (frameAt MaskState.NoMask 0).num_masks + 1
            mask_state := MaskState.DrawMaskStencil }) ∧
    ((frameAt MaskState.NoMask 0).push_mask.push_mask.num_masks = 2) ∧
    (0 < (frameAt MaskState.DrawMaskStencil 1).num_masks →
      (frameAt MaskState.DrawMaskStencil 1).mask_state =
        MaskState.DrawMaskStencil →
      (frameAt MaskState.DrawMaskStencil 1).activate_mask =
        { frameAt MaskState.DrawMaskStencil 1 with
            mask_state := MaskState.DrawMaskedContent }) ∧
    (0 < (frameAt MaskState.ClearMaskStencil 1).num_masks →
      (frameAt MaskState.ClearMaskStencil 1).num_masks < U32 →
      (frameAt MaskState.ClearMaskStencil 1).mask_state =
        MaskState.ClearMaskStencil →
      (frameAt MaskState.ClearMaskStencil 1).pop_mask =
        { frameAt MaskState.ClearMaskStencil 1 with
            num_masks := (frameAt MaskState.ClearMaskStencil 1).num_masks - 1
            mask_state :=
              if (frameAt MaskState.ClearMaskStencil 1).num_masks - 1 = 0 then
                MaskState.NoMask
              else MaskState.DrawMaskedContent }) :=
  ⟨(mask_transition_table (frameAt MaskState.NoMask 0)).1,
   by decide,
   (mask_transition_table (frameAt MaskState.DrawMaskStencil 1)).2.1,
   (mask_transition_table (frameAt MaskState.ClearMaskStencil 1)).2.2.2⟩

/-- C3 counterexample: at the initial frame state, whose blend stack holds
only the default entry, `PopBlend` succeeds silently (returns `some`, not
a panic), leaving the stack empty — it does not abort. -/
theorem pop_blend_default_succeeds :
    step (Frame.new [] []) Command.PopBlend =
      some ({ Frame.new [] [] with blend_modes := [] }, []) := rfl

/-- C3 amended: `PopBlend` on a stack holding only the default entry never
aborts; it silently removes the entry, leaving the stack empty; the
contract violation becomes fatal only at the next query of the current
blend mode (the `unwrap` inside any subsequent draw command panics). -/
theorem pop_blend_default_not_fatal (reg : List (Nat × RegistryData))
    (meshes : List Mesh) (color : Color) (matrix : Matrix) :
    step (Frame.new reg meshes) Command.PopBlend =
      some ({ Frame.new reg meshes with blend_modes := [] }, []) ∧
    ({ Frame.new reg meshes with blend_modes := [] } : Frame).blend_mode =
      none ∧
    step { Frame.new reg meshes with blend_modes := [] }
      (Command.DrawRect color matrix) = none :=
  ⟨rfl, rfl, rfl⟩

/-- C7: a `RenderBitmap` command whose handle has no registry entry
produces an empty effect trace (no draw call, no pipeline bind, no uniform
write) and leaves the frame state — mask phase, mask depth, blend stack —
unchanged; the absence is not fatal (`some`, not a panic). -/
theorem render_bitmap_missing_skips (f : Frame) (bitmap : Nat)
    (transform : Transform) (smoothing : Bool)
    (h : f.bitmap_registry.lookup bitmap = none) :
    step f (Command.RenderBitmap bitmap transform smoothing) =
      some (f, []) := by
  simp [step, Frame.render_bitmap, h]

/-- C7 witness: a concrete frame with an empty registry. -/
theorem render_bitmap_missing_skips_witness :
    step (Frame.new [] []) (Command.RenderBitmap 7 sampleTransform false) =
      some (Frame.new [] [], []) :=
  render_bitmap_missing_skips (Frame.new [] []) 7 sampleTransform false rfl

/-- C8: for any blend mode and any frame with a non-empty blend stack,
`PushBlend` immediately followed by `PopBlend` restores the frame (hence
the blend stack) exactly, so the current blend mode observed by subsequent
draws is unchanged. -/
theorem push_pop_blend_restores (f : Frame) (blend : BlendMode)
    (_h : f.blend_modes ≠ []) :
    (f.push_blend_mode blend).pop_blend_mode = f ∧
    ((f.push_blend_mode blend).pop_blend_mode).blend_mode = f.blend_mode := by
  have e : (f.push_blend_mode blend).pop_blend_mode = f := by
    simp [Frame.push_blend_mode, Frame.pop_blend_mode]
  exact ⟨e, by rw [e]⟩

/-- C8 witness: pushing `Multiply` over the initial stack and popping. -/
theorem push_pop_blend_restores_witness :
    ((Frame.new [] []).push_blend_mode BlendMode.Multiply).pop_blend_mode =
      Frame.new [] [] ∧
    (((Frame.new [] []).push_blend_mode
        BlendMode.Multiply).pop_blend_mode).blend_mode =
      (Frame.new [] []).blend_mode :=
  push_pop_blend_restores (Frame.new [] []) BlendMode.Multiply (by decide)

/-- C9: every `DrawRect` submits exactly one color-adjustment uniform (on
slot 1) whose multiplicative color is each 8-bit channel divided by 255
and whose additive color is `(0,0,0,0)`, and selects exactly the
flat-color pipeline variant for the current blend mode and mask phase. -/
theorem draw_rect_uniform_and_pipeline (f : Frame) (color : Color)
    (matrix : Matrix) (blend : BlendMode) (es : List Effect)
    (hblend : f.blend_mode = some blend)
    (hes : f.draw_rect color matrix = some es) :
    uniformWrites es =
      [(1, { world_matrix := worldMatrixOf matrix
             color_adjustments :=
               { mult_color := ((color.r : ℚ) / 255, (color.g : ℚ) / 255,
                                (color.b : ℚ) / 255, (color.a : ℚ) / 255)
                 add_color := (0, 0, 0, 0) } })] ∧
    pipelineSelections es = [(PipelineKind.color, blend, f.mask_state)] := by
  rw [Frame.draw_rect, hblend] at hes
  obtain rfl : _ = es := Option.some.inj hes
  cases h : f.mask_state <;>
    simp [uniformWrites, pipelineSelections, maskStencilEffects, h,
      List.filterMap_append]

/-- C9 witness: `DrawRect` with color `(255,0,0,128)` at the initial frame
submits multiplicative color `(1, 0, 0, 128/255)` and zero additive
color, through the flat-color pipeline for `Normal`/`NoMask`. -/
theorem draw_rect_uniform_and_pipeline_witness :
    uniformWrites (((Frame.new [] []).draw_rect ⟨255, 0, 0, 128⟩
        Matrix.default).getD []) =
      [(1, { world_matrix := worldMatrixOf Matrix.default
             color_adjustments :=
               { mult_color := (((255 : Nat) : ℚ) / 255, ((0 : Nat) : ℚ) / 255,
                                ((0 : Nat) : ℚ) / 255, ((128 : Nat) : ℚ) / 255)
                 add_color := (0, 0, 0, 0) } })] ∧
    pipelineSelections (((Frame.new [] []).draw_rect ⟨255, 0, 0, 128⟩
        Matrix.default).getD []) =
      [(PipelineKind.color, BlendMode.Normal, MaskState.NoMask)] :=
  draw_rect_uniform_and_pipeline (Frame.new [] []) ⟨255, 0, 0, 128⟩
    Matrix.default BlendMode.Normal _ rfl rfl

/-- The sub-draw loop body of `render_shape` performs no uniform write. -/
theorem uniformWrites_shapeDrawEffects (mask_state : MaskState)
    (num_masks : Nat) (blend : BlendMode) (draw : Draw) :
    uniformWrites (shapeDrawEffects mask_state num_masks blend draw) = [] := by
  obtain ⟨dt, ni, nmi, vb, ib⟩ := draw
  simp only [shapeDrawEffects]
  split
  · rfl
  · cases dt <;> cases mask_state <;> rfl

/-- C10: every `RenderShape` command that completes binds the frame-global
bind group (slot 0) and then writes the per-draw transform uniform
(slot 1) as its first two effects — before any sub-draw is examined — and
the whole trace contains exactly this one uniform write, whatever the
mesh's sub-draws (in particular when every one is skipped). -/
theorem render_shape_header (f : Frame) (shape : Nat) (transform : Transform)
    (mesh : Mesh) (blend : BlendMode) (es : List Effect)
    (hblend : f.blend_mode = some blend)
    (hmesh : f.meshes.get? shape = some mesh)
    (hes : f.render_shape shape transform = some es) :
    ∃ tail,
      es = Effect.set_bind_group 0 BindGroup.globals ::
           Effect.write_uniforms 1
             { world_matrix := worldMatrixOf transform.matrix
               color_adjustments :=
                 ColorAdjustments.from transform.color_transform } :: tail ∧
      uniformWrites es =
        [(1, { world_matrix := worldMatrixOf transform.matrix
               color_adjustments :=
                 ColorAdjustments.from transform.color_transform })] := by
  rw [Frame.render_shape, hblend] at hes
  rw [hmesh] at hes
  obtain rfl : _ = es := Option.some.inj hes
  refine ⟨_, rfl, ?_⟩
  simp only [uniformWrites, List.cons_append, List.nil_append,
    List.filterMap_cons]
  induction mesh.draws with
  | nil => simp [List.filterMap_nil]
  | cons d ds ih =>
      simpa [List.flatMap_cons, List.filterMap_append,
        show List.filterMap _ (shapeDrawEffects f.mask_state f.num_masks
          blend d) = [] from uniformWrites_shapeDrawEffects _ _ _ d]
        using ih

/-- A mesh whose single sub-draw has zero indices of both kinds. -/
def emptyDrawMesh : Mesh :=
  { draws := [{ draw_type := DrawType.Color, num_indices := 0,
                num_mask_indices := 0, vertex_buffer := 0,
                index_buffer := 0 }] }

/-- C10 witness: a mesh whose single sub-draw has zero indices of both
kinds still gets the global bind and exactly one uniform write. -/
theorem render_shape_header_witness :
    ∃ tail,
      (((Frame.new [] [emptyDrawMesh]).render_shape 0
          sampleTransform).getD []) =
        Effect.set_bind_group 0 BindGroup.globals ::
        Effect.write_uniforms 1
          { world_matrix := worldMatrixOf sampleTransform.matrix
            color_adjustments :=
              ColorAdjustments.from sampleTransform.color_transform } ::
        tail ∧
      uniformWrites (((Frame.new [] [emptyDrawMesh]).render_shape 0
          sampleTransform).getD []) =
        [(1, { world_matrix := worldMatrixOf sampleTransform.matrix
               color_adjustments :=
                 ColorAdjustments.from sampleTransform.color_transform })] :=
  render_shape_header (Frame.new [] [emptyDrawMesh]) 0 sampleTransform
    emptyDrawMesh BlendMode.Normal
    (((Frame.new [] [emptyDrawMesh]).render_shape 0 sampleTransform).getD [])
    rfl rfl rfl

/-- The repeated stencil match agrees with the spec's rule once the
`depth > 0` precondition (asserted at each site) holds: the wrapping
`u32` subtraction is an exact `depth - 1`. -/
theorem stencilRefs_maskStencilEffects (mask_state : MaskState)
    (num_masks : Nat)
    (h : mask_state ≠ MaskState.NoMask →
      0 < num_masks ∧ num_masks < U32) :
    stencilRefs (maskStencilEffects mask_state num_masks) =
      specStencilRefs mask_state num_masks := by
  have hU := U32_eq
  cases mask_state with
  | NoMask => rfl
  | DrawMaskStencil =>
      obtain ⟨h1, h2⟩ := h (by simp)
      have e : (num_masks + (U32 - 1)) % U32 = num_masks - 1 := by
        rw [hU] at h2 ⊢
        omega
      simp [maskStencilEffects, stencilRefs, specStencilRefs, e]
  | DrawMaskedContent => rfl
  | ClearMaskStencil => rfl

/-- The stencil references of one sub-draw loop iteration: none when the
iteration is skipped, exactly the phase rule's reference otherwise. -/
theorem stencilRefs_shapeDrawEffects (mask_state : MaskState)
    (num_masks : Nat) (blend : BlendMode) (draw : Draw) :
    stencilRefs (shapeDrawEffects mask_state num_masks blend draw) =
      if drawNumIndices mask_state draw = 0 then []
      else stencilRefs (maskStencilEffects mask_state num_masks) := by
  obtain ⟨dt, ni, nmi, vb, ib⟩ := draw
  simp only [shapeDrawEffects]
  split
  next => rfl
  next => cases dt <;> cases mask_state <;> rfl

/-- C2: for every draw-issuing command — `RenderBitmap` with a registered
handle, `DrawRect`, and each non-skipped sub-draw of `RenderShape` — the
stencil reference set before the draw call is exactly `depth - 1` in
`DrawingMaskStencil`, exactly `depth` in `DrawingMaskedContent` and
`ClearingMaskStencil`, and no stencil reference at all in `NoMask`. -/
theorem stencil_reference_rule (f : Frame) (entry : RegistryData)
    (bitmap : Nat) (transform : Transform) (smoothing : Bool) (shape : Nat)
    (mesh : Mesh) (color : Color) (matrix : Matrix) (blend : BlendMode)
    (es1 es2 es3 : List Effect)
    (hmask : f.mask_state ≠ MaskState.NoMask →
      0 < f.num_masks ∧ f.num_masks < U32)
    (hblend : f.blend_mode = some blend)
    (hreg : f.bitmap_registry.lookup bitmap = some entry)
    (h1 : f.render_bitmap bitmap transform smoothing = some es1)
    (hmesh : f.meshes.get? shape = some mesh)
    (h2 : f.render_shape shape transform = some es2)
    (h3 : f.draw_rect color matrix = some es3) :
    stencilRefs es1 = specStencilRefs f.mask_state f.num_masks ∧
    stencilRefs es3 = specStencilRefs f.mask_state f.num_masks ∧
    stencilRefs es2 =
      mesh.draws.flatMap (fun d =>
        if drawNumIndices f.mask_state d = 0 then []
        else specStencilRefs f.mask_state f.num_masks) := by
  have key := stencilRefs_maskStencilEffects f.mask_state f.num_masks hmask
  refine ⟨?_, ?_, ?_⟩
  · rw [Frame.render_bitmap, hreg, hblend] at h1
    injection h1 with h1
    subst h1
    rw [← key]
    simp [stencilRefs, List.filterMap_append]
  · rw [Frame.draw_rect, hblend] at h3
    injection h3 with h3
    subst h3
    rw [← key]
    simp [stencilRefs, List.filterMap_append]
  · rw [Frame.render_shape, hblend, hmesh] at h2
    injection h2 with h2
    subst h2
    rw [← key]
    simp only [stencilRefs, List.filterMap_cons, List.cons_append,
      List.nil_append]
    induction mesh.draws with
    | nil => rfl
    | cons d ds ih =>
        have hd := stencilRefs_shapeDrawEffects f.mask_state f.num_masks
          blend d
        simp only [stencilRefs] at hd
        simp only [List.flatMap_cons, List.filterMap_append, hd, ih]

/-- A registry entry for the C2 witness. -/
def witnessEntry : RegistryData := { texture_wrapper := ⟨16, 8, 3⟩ }

/-- A two-sub-draw mesh for the C2 witness: a fill-bearing color sub-draw
and a stroke-only gradient sub-draw that is skipped during mask phases. -/
def witnessMesh : Mesh :=
  { draws := [{ draw_type := DrawType.Color, num_indices := 4,
                num_mask_indices := 3, vertex_buffer := 1,
                index_buffer := 2 },
              { draw_type := DrawType.Gradient 9, num_indices := 5,
                num_mask_indices := 0, vertex_buffer := 3,
                index_buffer := 4 }] }

/-- The frame at `DrawMaskStencil`/depth 2 for the C2 witness. -/
def witnessFrame : Frame :=
  { mask_state := MaskState.DrawMaskStencil
    num_masks := 2
    blend_modes := [BlendMode.Normal]
    bitmap_registry := [(5, witnessEntry)]
    meshes := [witnessMesh] }

/-- C2 witness: at `DrawMaskStencil`/depth 2 every draw call's stencil
reference is 1. -/
theorem stencil_reference_rule_witness :
    stencilRefs ((witnessFrame.render_bitmap 5 sampleTransform true).getD [])
      = specStencilRefs witnessFrame.mask_state witnessFrame.num_masks ∧
    stencilRefs ((witnessFrame.draw_rect ⟨255, 0, 0, 128⟩
        Matrix.default).getD [])
      = specStencilRefs witnessFrame.mask_state witnessFrame.num_masks ∧
    stencilRefs ((witnessFrame.render_shape 0 sampleTransform).getD [])
      = witnessMesh.draws.flatMap (fun d =>
          if drawNumIndices witnessFrame.mask_state d = 0 then []
          else specStencilRefs witnessFrame.mask_state
            witnessFrame.num_masks) :=
  stencil_reference_rule witnessFrame witnessEntry 5 sampleTransform true 0
    witnessMesh ⟨255, 0, 0, 128⟩ Matrix.default BlendMode.Normal
    ((witnessFrame.render_bitmap 5 sampleTransform true).getD [])
    ((witnessFrame.render_shape 0 sampleTransform).getD [])
    ((witnessFrame.draw_rect ⟨255, 0, 0, 128⟩ Matrix.default).getD [])
    (fun _ => by constructor <;> decide)
    rfl rfl rfl rfl rfl rfl

/-- The stated precondition of each mask command (the `debug_assert!` at
each handler), plus the absence of `u32` overflow on `PushMask` (whose
increment would abort a debug build when `num_masks` is at the maximum);
non-mask commands have no precondition. -/
def cmdPre (f : Frame) : Command → Prop
  | Command.PushMask =>
      (f.mask_state = MaskState.NoMask ∨
       f.mask_state = MaskState.DrawMaskedContent) ∧ f.num_masks + 1 < U32
  | Command.ActivateMask =>
      0 < f.num_masks ∧ f.mask_state = MaskState.DrawMaskStencil
  | Command.DeactivateMask =>
      0 < f.num_masks ∧ f.mask_state = MaskState.DrawMaskedContent
  | Command.PopMask =>
      0 < f.num_masks ∧ f.mask_state = MaskState.ClearMaskStencil
  | _ => True

/-- Every command of the sequence satisfies its precondition at the state
at which it is issued. -/
def PreAlong : Frame → List Command → Prop
  | _, [] => True
  | f, c :: cs =>
      cmdPre f c ∧
      match step f c with
      | none => True
      | some (f', _) => PreAlong f' cs

/-- The paired invariant of §3 together with the `u32` range bound. -/
def maskInvariant (f : Frame) : Prop :=
  (f.mask_state = MaskState.NoMask ↔ f.num_masks = 0) ∧ f.num_masks < U32

/-- One command preserves the mask invariant when its precondition holds. -/
theorem step_preserves_maskInvariant (f f' : Frame) (c : Command)
    (es : List Effect) (hinv : maskInvariant f) (hpre : cmdPre f c)
    (hstep : step f c = some (f', es)) : maskInvariant f' := by
  have hU := U32_eq
  obtain ⟨hiff, hlt⟩ := hinv
  cases c with
  | RenderBitmap b t s =>
      cases h : f.render_bitmap b t s with
      | none => simp [step, h] at hstep
      | some l =>
          simp only [step, h, Option.map_some'] at hstep
          obtain ⟨h1, h2⟩ := Prod.mk.injEq .. ▸ Option.some.inj hstep
          exact h1 ▸ ⟨hiff, hlt⟩
  | RenderShape sh t =>
      cases h : f.render_shape sh t with
      | none => simp [step, h] at hstep
      | some l =>
          simp only [step, h, Option.map_some'] at hstep
          obtain ⟨h1, h2⟩ := Prod.mk.injEq .. ▸ Option.some.inj hstep
          exact h1 ▸ ⟨hiff, hlt⟩
  | DrawRect col m =>
      cases h : f.draw_rect col m with
      | none => simp [step, h] at hstep
      | some l =>
          simp only [step, h, Option.map_some'] at hstep
          obtain ⟨h1, h2⟩ := Prod.mk.injEq .. ▸ Option.some.inj hstep
          exact h1 ▸ ⟨hiff, hlt⟩
  | PushMask =>
      obtain ⟨h1, h2⟩ := Prod.mk.injEq .. ▸ Option.some.inj hstep
      obtain ⟨hph, hov⟩ := hpre
      refine h1 ▸ ⟨by simp [Frame.push_mask, Nat.mod_eq_of_lt hov], ?_⟩
      simp only [Frame.push_mask]
      exact Nat.mod_lt _ (by rw [hU]; norm_num)
  | ActivateMask =>
      obtain ⟨h1, h2⟩ := Prod.mk.injEq .. ▸ Option.some.inj hstep
      obtain ⟨hn, hms⟩ := hpre
      exact h1 ▸ ⟨by simp [Frame.activate_mask]; omega, hlt⟩
  | DeactivateMask =>
      obtain ⟨h1, h2⟩ := Prod.mk.injEq .. ▸ Option.some.inj hstep
      obtain ⟨hn, hms⟩ := hpre
      exact h1 ▸ ⟨by simp [Frame.deactivate_mask]; omega, hlt⟩
  | PopMask =>
      obtain ⟨h1, h2⟩ := Prod.mk.injEq .. ▸ Option.some.inj hstep
      obtain ⟨hn, hms⟩ := hpre
      have e : (f.num_masks + (U32 - 1)) % U32 = f.num_masks - 1 := by
        rw [hU] at hlt ⊢; omega
      refine h1 ▸ ⟨?_, ?_⟩
      · simp only [Frame.pop_mask, e]
        split
        next hz => simp [hz]
        next hz => simp [hz]
      · simp only [Frame.pop_mask, e]
        rw [hU] at hlt ⊢; omega
  | PushBlend bl =>
      obtain ⟨h1, h2⟩ := Prod.mk.injEq .. ▸ Option.some.inj hstep
      exact h1 ▸ ⟨hiff, hlt⟩
  | PopBlend =>
      obtain ⟨h1, h2⟩ := Prod.mk.injEq .. ▸ Option.some.inj hstep
      exact h1 ▸ ⟨hiff, hlt⟩

/-- A whole command sequence preserves the mask invariant when every
command's precondition holds along the way. -/
theorem run_preserves_maskInvariant (cs : List Command) :
    ∀ f f', maskInvariant f → PreAlong f cs → run f cs = some f' →
      maskInvariant f' := by
  induction cs with
  | nil =>
      intro f f' hinv _ hrun
      obtain rfl := Option.some.inj hrun
      exact hinv
  | cons c cs ih =>
      intro f f' hinv hpre hrun
      cases hs : step f c with
      | none => simp [run, hs] at hrun
      | some p =>
          obtain ⟨f1, es⟩ := p
          simp only [run, hs] at hrun
          have h2 := hpre.2
          rw [hs] at h2
          exact ih f1 f'
            (step_preserves_maskInvariant f f1 c es hinv hpre.1 hs) h2 hrun

/-- C4: starting from the initial frame state, and assuming each mask
command's precondition holds when it is issued, every command sequence
preserves the pairing of mask phase and mask depth: the phase is `NoMask`
if and only if the depth is zero. -/
theorem mask_phase_depth_invariant (reg : List (Nat × RegistryData))
    (meshes : List Mesh) (cs : List Command) (f : Frame)
    (hrun : run (Frame.new reg meshes) cs = some f)
    (hpre : PreAlong (Frame.new reg meshes) cs) :
    (f.mask_state = MaskState.NoMask ↔ f.num_masks = 0) :=
  (run_preserves_maskInvariant cs (Frame.new reg meshes) f
    ⟨by simp [Frame.new], by simp [Frame.new, U32_eq]⟩ hpre hrun).1

/-- The doubly nested mask scenario used by the C4 witness. -/
def nestedMaskCmds : List Command :=
  [Command.PushMask, Command.ActivateMask, Command.PushMask,
   Command.ActivateMask, Command.DeactivateMask, Command.PopMask,
   Command.DeactivateMask, Command.PopMask]

/-- C4 witness: the nested mask scenario from the initial state ends in a
state satisfying the invariant, with every precondition checked. -/
theorem mask_phase_depth_invariant_witness :
    ((Frame.new [] []).mask_state = MaskState.NoMask ↔
      (Frame.new [] []).num_masks = 0) :=
  mask_phase_depth_invariant [] [] nestedMaskCmds (Frame.new [] [])
    (by decide)
    (by
      simp only [nestedMaskCmds, PreAlong, cmdPre, step, Frame.new,
        Frame.push_mask, Frame.activate_mask, Frame.deactivate_mask,
        Frame.pop_mask, U32_eq]
      norm_num)

/-- Number of `PushMask` commands in a sequence. -/
def pushCount (cs : List Command) : Nat :=
  cs.countP fun c => c == Command.PushMask

/-- Number of `PopMask` commands in a sequence. -/
def popCount (cs : List Command) : Nat :=
  cs.countP fun c => c == Command.PopMask

/-- A balanced sequence: as many `PushMask` as `PopMask` overall, and no
prefix with more pops than pushes. -/
def Balanced (cs : List Command) : Prop :=
  pushCount cs = popCount cs ∧
  ∀ n, popCount (cs.take n) ≤ pushCount (cs.take n)

/-- `run` splits over list append. -/
theorem run_append (u v : List Command) :
    ∀ f, run f (u ++ v) =
      match run f u with
      | none => none
      | some g => run g v := by
  induction u with
  | nil => intro f; rfl
  | cons c u ih =>
      intro f
      cases hs : step f c with
      | none => simp [run, hs]
      | some p => obtain ⟨f1, es⟩ := p; simp [run, hs, ih f1]

/-- Mask push/pop sequences always complete, keep `num_masks` below
`2^32`, and change it by the push count minus the pop count modulo
`2^32`. -/
theorem run_mask_counts (cs : List Command) :
    ∀ f : Frame,
      (∀ c ∈ cs, c = Command.PushMask ∨ c = Command.PopMask) →
      f.num_masks < U32 →
      ∃ f', run f cs = some f' ∧ f'.num_masks < U32 ∧
        ∃ t : ℤ, (f'.num_masks : ℤ) =
          (f.num_masks : ℤ) + pushCount cs - popCount cs + t * U32 := by
  have hU := U32_eq
  induction cs with
  | nil =>
      intro f _ hlt
      exact ⟨f, rfl, hlt, 0, by simp [pushCount, popCount]⟩
  | cons c cs ih =>
      intro f hmem hlt
      have hc := hmem c (List.mem_cons_self c cs)
      have hmem' : ∀ c ∈ cs, c = Command.PushMask ∨ c = Command.PopMask :=
        fun c hcc => hmem c (List.mem_cons_of_mem _ hcc)
      rcases hc with rfl | rfl
      · have hlt1 : (f.push_mask).num_masks < U32 := by
          simp only [Frame.push_mask]
          exact Nat.mod_lt _ (by rw [hU]; norm_num)
        obtain ⟨f', hrun, hlt', t, ht⟩ := ih f.push_mask hmem' hlt1
        refine ⟨f', by simp [run, step, hrun], hlt', ?_⟩
        have hmod : (f.push_mask).num_masks = (f.num_masks + 1) % U32 := rfl
        have hp : pushCount (Command.PushMask :: cs) = pushCount cs + 1 := by
          simp [pushCount, List.countP_cons]
        have hq : popCount (Command.PushMask :: cs) = popCount cs := by
          simp [popCount, List.countP_cons]
        rw [hp, hq]
        rw [hU] at hmod hlt ht ⊢
        have hcases : (f.push_mask).num_masks = f.num_masks + 1 ∨
            ((f.push_mask).num_masks = 0 ∧ f.num_masks + 1 = 4294967296) := by
          omega
        rcases hcases with he | ⟨he, hw⟩
        · exact ⟨t, by push_cast at ht ⊢; omega⟩
        · exact ⟨t - 1, by push_cast at ht ⊢; omega⟩
      · have hlt1 : (f.pop_mask).num_masks < U32 := by
          simp only [Frame.pop_mask]
          exact Nat.mod_lt _ (by rw [hU]; norm_num)
        obtain ⟨f', hrun, hlt', t, ht⟩ := ih f.pop_mask hmem' hlt1
        refine ⟨f', by simp [run, step, hrun], hlt', ?_⟩
        have hmod : (f.pop_mask).num_masks =
            (f.num_masks + (U32 - 1)) % U32 := rfl
        have hp : pushCount (Command.PopMask :: cs) = pushCount cs := by
          simp [pushCount, List.countP_cons]
        have hq : popCount (Command.PopMask :: cs) = popCount cs + 1 := by
          simp [popCount, List.countP_cons]
        rw [hp, hq]
        rw [hU] at hmod hlt ht ⊢
        have hcases : (f.pop_mask).num_masks + 1 = f.num_masks ∨
            ((f.pop_mask).num_masks = 4294967295 ∧ f.num_masks = 0) := by
          omega
        rcases hcases with he | ⟨he, hw⟩
        · exact ⟨t, by push_cast at ht ⊢; omega⟩
        · exact ⟨t + 1, by push_cast at ht ⊢; omega⟩

/-- A nonempty balanced push/pop sequence ends with a `PopMask`. -/
theorem balanced_last_pop (cs : List Command)
    (hmem : ∀ c ∈ cs, c = Command.PushMask ∨ c = Command.PopMask)
    (hb : Balanced cs) (hne : cs ≠ []) :
    ∃ u, cs = u ++ [Command.PopMask] := by
  have hsplit := List.dropLast_append_getLast hne
  have hlast := hmem (cs.getLast hne) (List.getLast_mem hne)
  rcases hlast with hl | hl
  · exfalso
    have htake : cs.dropLast = cs.take (cs.length - 1) :=
      List.dropLast_eq_take cs
    have hpre := hb.2 (cs.length - 1)
    rw [← htake] at hpre
    have hp : pushCount cs = pushCount cs.dropLast + 1 := by
      conv_lhs => rw [← hsplit]
      simp [pushCount, List.countP_append, hl]
    have hq : popCount cs = popCount cs.dropLast := by
      conv_lhs => rw [← hsplit]
      simp [popCount, List.countP_append, hl]
    have := hb.1
    omega
  · refine ⟨cs.dropLast, ?_⟩
    conv_lhs => rw [← hsplit]
    rw [hl]

/-- C5: any balanced sequence of `PushMask`/`PopMask` commands processed
from the initial `NoMask`/depth-0 state completes with the mask depth back
at 0 and the mask phase back at `NoMask`. -/
theorem balanced_masks_return (reg : List (Nat × RegistryData))
    (meshes : List Mesh) (cs : List Command)
    (hmem : ∀ c ∈ cs, c = Command.PushMask ∨ c = Command.PopMask)
    (hb : Balanced cs) :
    ∃ f, run (Frame.new reg meshes) cs = some f ∧
      f.num_masks = 0 ∧ f.mask_state = MaskState.NoMask := by
  have hU := U32_eq
  have h0 : (Frame.new reg meshes).num_masks < U32 := by
    simp [Frame.new, hU]
  obtain ⟨f', hrun, hlt, t, ht⟩ := run_mask_counts cs _ hmem h0
  have hz : f'.num_masks = 0 := by
    rw [hb.1] at ht
    simp only [Frame.new] at ht
    rw [hU] at hlt ht
    push_cast at ht
    omega
  refine ⟨f', hrun, hz, ?_⟩
  rcases List.eq_nil_or_concat cs with rfl | _
  · obtain rfl := Option.some.inj hrun
    rfl
  · obtain ⟨u, hu⟩ := balanced_last_pop cs hmem hb (by
      rename_i h; obtain ⟨_, _, rfl⟩ := h; simp)
    subst hu
    have hap := run_append u [Command.PopMask] (Frame.new reg meshes)
    rw [hrun] at hap
    cases hg : run (Frame.new reg meshes) u with
    | none => rw [hg] at hap; exact absurd hap (by simp)
    | some g =>
        rw [hg] at hap
        have hstep : run g [Command.PopMask] = some f' := hap.symm
        simp only [run, step] at hstep
        obtain rfl := Option.some.inj hstep
        simp only [Frame.pop_mask] at hz ⊢
        rw [hz]
        rfl

/-- C5 witness: the nested balanced sequence
`[PushMask, PushMask, PopMask, PopMask]`. -/
theorem balanced_masks_return_witness :
    ∃ f, run (Frame.new [] [])
        [Command.PushMask, Command.PushMask, Command.PopMask,
         Command.PopMask] = some f ∧
      f.num_masks = 0 ∧ f.mask_state = MaskState.NoMask :=
  balanced_masks_return [] []
    [Command.PushMask, Command.PushMask, Command.PopMask, Command.PopMask]
    (by decide)
    ⟨by decide, by
      intro n
      match n with
      | 0 => decide
      | 1 => decide
      | 2 => decide
      | 3 => decide
      | (m + 4) =>
          rw [List.take_of_length_le (by simp)]
          decide⟩

/-- C6: for every sub-draw of a shape's mesh the code's applicable index
count equals the spec's rule (reduced mask-only count exactly in
`DrawingMaskStencil`/`ClearingMaskStencil`, normal count otherwise); the
sub-draw contributes no effect at all — no pipeline bind, no draw call —
exactly when that count is zero, and otherwise its indexed draw call uses
exactly that count. -/
theorem shape_subdraw_index_rule (ms : MaskState) (n : Nat)
    (bm : BlendMode) (d : Draw) :
    drawNumIndices ms d = applicableIndices ms d ∧
    (shapeDrawEffects ms n bm d = [] ↔ applicableIndices ms d = 0) ∧
    (∀ k, Effect.draw_indexed k ∈ shapeDrawEffects ms n bm d ↔
      (applicableIndices ms d ≠ 0 ∧ k = applicableIndices ms d)) := by
  obtain ⟨dt, ni, nmi, vb, ib⟩ := d
  have h1 : drawNumIndices ms ⟨dt, ni, nmi, vb, ib⟩ =
      applicableIndices ms ⟨dt, ni, nmi, vb, ib⟩ := by
    cases ms <;> simp [drawNumIndices, applicableIndices]
  refine ⟨h1, ?_, ?_⟩
  · simp only [shapeDrawEffects, h1]
    split
    next h => simp [h]
    next h => cases dt <;> simp [h]
  · intro k
    simp only [shapeDrawEffects, h1]
    split
    next h => simp [h]
    next h =>
        cases dt <;> cases ms <;>
          simp [maskStencilEffects, h, eq_comm]

end Ruffle
